import Mathlib

/-!
# Verification of the secure-bridge-lib hybrid-encryption library

Shallow embedding of `src/secure-bridge-lib/index.ts` (classes `AES256GCM`,
`RSAKeyPairManager`, `SecureBridge`) and of the blind-indexing scheme of the
verification service.  JS strings are modelled as `List Char`, byte buffers as
`List Nat` with entries below 256, and the process entropy source
(`crypto.randomBytes`) as an explicit tape `Nat → Nat`, one fresh tape per
independent draw.  The external cryptographic primitives from Node's `crypto`
module (the AES-256-GCM cipher core and the RSA-OAEP trapdoor) are not part of
the repository; they are modelled as executable ideal functionalities that
realise their documented contracts: the cipher is an invertible keyed
transform whose 16-byte tag binds key, nonce and ciphertext, and the OAEP box
is an invertible wrap whose padding check rejects a wrong key or a corrupted
blob with one generic failure.  Confidentiality is not modelled (no claim
below concerns secrecy); the functional, integrity and error behaviour is.
-/

/-- JS byte buffers (`Buffer`) are modelled as lists of naturals below 256. -/
abbrev Bytes := List Nat

/-- Every entry of the list is a genuine byte value. -/
def ByteOK (bs : Bytes) : Prop := ∀ b ∈ bs, b < 256

instance (bs : Bytes) : Decidable (ByteOK bs) := List.decidableBAll _ bs

/-- The standard base64 alphabet, as used by `Buffer`'s `"base64"` codec:
uppercase letters, lowercase letters, digits, then `+` and `/`. -/
def B64CHARS : List Char :=
  ((List.range 26).map fun i => Char.ofNat (65 + i)) ++
  ((List.range 26).map fun i => Char.ofNat (97 + i)) ++
  ((List.range 10).map fun i => Char.ofNat (48 + i)) ++ ['+', '/']

/-- Character of a 6-bit group. -/
def b64chr (n : Nat) : Char := B64CHARS.getD n 'A'

/-- 6-bit value of an alphabet character. -/
def b64idx (c : Char) : Nat := B64CHARS.indexOf c

/-- Membership in the base64 alphabet. -/
def isB64Char (c : Char) : Bool := B64CHARS.contains c

/-- Base64 encoding of a byte sequence (`Buffer.prototype.toString "base64"`):
three bytes become four alphabet characters, a final group of one or two bytes
is padded with `=`. -/
def b64encode : Bytes → List Char
  | b0 :: b1 :: b2 :: rest =>
      b64chr (b0 / 4) :: b64chr (b0 % 4 * 16 + b1 / 16) ::
      b64chr (b1 % 16 * 4 + b2 / 64) :: b64chr (b2 % 64) :: b64encode rest
  | [b0, b1] => [b64chr (b0 / 4), b64chr (b0 % 4 * 16 + b1 / 16), b64chr (b1 % 16 * 4), '=']
  | [b0] => [b64chr (b0 / 4), b64chr (b0 % 4 * 16), '=', '=']
  | [] => []

/-- Decoding of a stream of alphabet characters, four at a time; a trailing
group of two or three characters yields one or two bytes, a lone trailing
character carries fewer than eight bits and yields nothing. -/
def b64decodeCore : List Char → Bytes
  | c0 :: c1 :: c2 :: c3 :: rest =>
      (b64idx c0 * 4 + b64idx c1 / 16) :: (b64idx c1 % 16 * 16 + b64idx c2 / 4) ::
      (b64idx c2 % 4 * 64 + b64idx c3) :: b64decodeCore rest
  | [c0, c1, c2] => [b64idx c0 * 4 + b64idx c1 / 16, b64idx c1 % 16 * 16 + b64idx c2 / 4]
  | [c0, c1] => [b64idx c0 * 4 + b64idx c1 / 16]
  | [_] => []
  | [] => []

/-- Node's forgiving base64 decode (`Buffer.from s "base64"`): characters
outside the alphabet — whitespace, padding, arbitrary junk — are silently
ignored, never reported. -/
def b64decode (s : List Char) : Bytes := b64decodeCore (s.filter fun c => isB64Char c)

/-- A string is validly base64-encoded iff it is the canonical encoding of the
byte sequence it decodes to (equivalently, iff it lies in the image of
`b64encode`). -/
def isValidB64 (s : List Char) : Bool := s == b64encode (b64decode s)

/-- Model of `crypto.randomBytes n`: reads `n` fresh bytes from the process
entropy tape.  A separate tape models each independent draw. -/
def randomBytes (n : Nat) (tape : Nat → Nat) : Bytes := (List.range n).map fun i => tape i % 256

/-- Shift used by the ideal cipher core, determined by key and nonce. -/
def gcmShift (key iv : Bytes) : Nat := (key.sum + iv.sum) % 256

/-- Ideal model of the AES-256-GCM encryption core (`createCipheriv` +
`update`/`final`): an invertible keyed transform of the plaintext.  The
key/nonce fingerprint prefix makes the ciphertext injective in (key, nonce,
plaintext), the property the freshness claims rest on; confidentiality is not
modelled. -/
def gcmEncBytes (key iv p : Bytes) : Bytes :=
  key ++ iv ++ p.map fun b => (b + gcmShift key iv) % 256

/-- Ideal model of the AES-256-GCM decryption core: inverse of `gcmEncBytes`
for the same key and nonce. -/
def gcmDecBytes (key iv c : Bytes) : Bytes :=
  ((c.drop key.length).drop iv.length).map fun b => (b + (256 - gcmShift key iv)) % 256

/-- Ideal model of the 16-byte GCM authentication tag: a keyed checksum whose
first byte is a weighted byte-sum of key, nonce and ciphertext, so that any
change of a single byte value in any of the three inputs changes the tag. -/
def gcmTag (key iv c : Bytes) : Bytes :=
  (List.range 16).map fun j => (3 * key.sum + 5 * iv.sum + 7 * c.sum + 11 * j) % 256

/-- The failure kinds the library's operations can raise (the TypeScript code
throws `Error`s; the kinds record which check threw: `createCipheriv` /
`createDecipheriv` rejecting a wrongly-sized key, `decipher.final` rejecting a
bad tag, `privateDecrypt` rejecting a bad OAEP unwrap). -/
inductive CryptoError where
  | invalidKeyLength
  | authenticationFailure
  | unwrapFailure
deriving DecidableEq

instance {ε α : Type} [DecidableEq ε] [DecidableEq α] : DecidableEq (Except ε α) := fun a b =>
  match a, b with
  | .ok x, .ok y =>
      match decEq x y with
      | isTrue h => isTrue (by rw [h])
      | isFalse h => isFalse fun hc => h (Except.ok.inj hc)
  | .error x, .error y =>
      match decEq x y with
      | isTrue h => isTrue (by rw [h])
      | isFalse h => isFalse fun hc => h (Except.error.inj hc)
  | .ok _, .error _ => isFalse fun hc => Except.noConfusion hc
  | .error _, .ok _ => isFalse fun hc => Except.noConfusion hc

/-- `AES256GCM.KEY_LENGTH = 32` (256 bits). -/
def AES256GCM.KEY_LENGTH : Nat := 32

/-- `AES256GCM.IV_LENGTH = 12` (96 bits). -/
def AES256GCM.IV_LENGTH : Nat := 12

/-- `AES256GCM.AUTH_TAG_LENGTH = 16` (128 bits). -/
def AES256GCM.AUTH_TAG_LENGTH : Nat := 16

/-- `AES256GCM.generateKey`: base64 of 32 fresh random bytes. -/
def AES256GCM.generateKey (tape : Nat → Nat) : List Char :=
  b64encode (randomBytes AES256GCM.KEY_LENGTH tape)

/-- `AES256GCM.generateIV`: base64 of 12 fresh random bytes. -/
def AES256GCM.generateIV (tape : Nat → Nat) : List Char :=
  b64encode (randomBytes AES256GCM.IV_LENGTH tape)

/-- Result record of `AES256GCM.encrypt` (all fields base64 strings). -/
structure AESEncryptionResult where
  ciphertext : List Char
  iv : List Char
  authTag : List Char
  key : List Char
deriving DecidableEq

/-- Input record of `AES256GCM.decrypt` (all fields base64 strings). -/
structure AESDecryptionInput where
  ciphertext : List Char
  iv : List Char
  authTag : List Char
  key : List Char
deriving DecidableEq

/-- JS `key || fallback` on an optional string: an absent or empty (falsy)
string selects the fallback. -/
def jsStringOr (key : Option (List Char)) (fallback : List Char) : List Char :=
  match key with
  | none => fallback
  | some s => if s = [] then fallback else s

/-- `AES256GCM.encrypt`: use the provided key if truthy, else generate one;
generate a fresh random IV; encrypt and tag.  `createCipheriv` throws when the
decoded key is not exactly 32 bytes, modelled by the `.error` branch. -/
def AES256GCM.encrypt (plaintext : Bytes) (key : Option (List Char))
    (keyTape ivTape : Nat → Nat) : Except CryptoError AESEncryptionResult :=
  let aesKey := jsStringOr key (AES256GCM.generateKey keyTape)
  let keyBuffer := b64decode aesKey
  let iv := AES256GCM.generateIV ivTape
  let ivBuffer := b64decode iv
  if keyBuffer.length = AES256GCM.KEY_LENGTH then
    let ciphertext := gcmEncBytes keyBuffer ivBuffer plaintext
    .ok { ciphertext := b64encode ciphertext
          iv := iv
          authTag := b64encode (gcmTag keyBuffer ivBuffer ciphertext)
          key := aesKey }
  else .error .invalidKeyLength

/-- `AES256GCM.decrypt`: decode the four fields (leniently, as `Buffer.from`
does — there is no encoding validation in the source), then decrypt;
`decipher.final` releases the plaintext only after the tag verifies, so a tag
mismatch yields an error and no plaintext. -/
def AES256GCM.decrypt (input : AESDecryptionInput) : Except CryptoError Bytes :=
  let keyBuffer := b64decode input.key
  let ivBuffer := b64decode input.iv
  let authTagBuffer := b64decode input.authTag
  if keyBuffer.length = AES256GCM.KEY_LENGTH then
    let ctBuffer := b64decode input.ciphertext
    if authTagBuffer = gcmTag keyBuffer ivBuffer ctBuffer then
      .ok (gcmDecBytes keyBuffer ivBuffer ctBuffer)
    else .error .authenticationFailure
  else .error .invalidKeyLength

/-- Prefix-free fingerprint of an RSA key in the ideal OAEP model. -/
def pubEncode (k : Nat) : Bytes := List.replicate k 1 ++ [0]

/-- Ideal model of `publicEncrypt` with `RSA_PKCS1_OAEP_PADDING`: the wrapped
blob binds the key pair, an integrity byte and the payload, so that unwrapping
checks the OAEP structure as a whole. -/
def rsaOaepWrap (data : Bytes) (pub : Nat) : Bytes :=
  pubEncode pub ++ (pub + data.sum) % 256 :: data

/-- Ideal model of `privateDecrypt` with `RSA_PKCS1_OAEP_PADDING`: recovers
the payload of a blob wrapped under the matching public key; a wrong key or
any corrupted byte fails the padding check with one generic failure. -/
def rsaOaepUnwrap (w : Bytes) (priv : Nat) : Except CryptoError Bytes :=
  if w.take (priv + 1) = pubEncode priv then
    match w.drop (priv + 1) with
    | mac :: data =>
        if mac = (priv + data.sum) % 256 then .ok data else .error .unwrapFailure
    | [] => .error .unwrapFailure
  else .error .unwrapFailure

/-- RSA key pair (PEM texts are modelled by the generation seed they encode). -/
structure RSAKeyPair where
  publicKey : Nat
  privateKey : Nat
deriving DecidableEq

/-- `RSAKeyPairManager.generateKeyPair`: a fresh pair from the generator's
randomness; the two halves of one pair match exactly each other. -/
def RSAKeyPairManager.generateKeyPair (seed : Nat) : RSAKeyPair := ⟨seed, seed⟩

/-- `RSAKeyPairManager.encryptWithPublicKey`: base64-decode the data, wrap it
under the public key, base64-encode the result. -/
def RSAKeyPairManager.encryptWithPublicKey (data : List Char) (publicKeyPEM : Nat) : List Char :=
  b64encode (rsaOaepWrap (b64decode data) publicKeyPEM)

/-- `RSAKeyPairManager.decryptWithPrivateKey`: base64-decode, unwrap under the
private key, return the payload re-encoded in base64. -/
def RSAKeyPairManager.decryptWithPrivateKey (encryptedData : List Char) (privateKeyPEM : Nat) :
    Except CryptoError (List Char) :=
  (rsaOaepUnwrap (b64decode encryptedData) privateKeyPEM).map b64encode

/-- The hybrid envelope returned by `SecureBridge.encryptRequest`. -/
structure EncryptedPayload where
  ciphertext : List Char
  encryptedAESKey : List Char
  iv : List Char
  authTag : List Char
deriving DecidableEq

/-- `SecureBridge.encryptRequest`: AES-encrypt the payload under a fresh key,
RSA-wrap that key under the server's public key, package the envelope. -/
def SecureBridge.encryptRequest (payload : Bytes) (serverPublicKey : Nat)
    (keyTape ivTape : Nat → Nat) : Except CryptoError EncryptedPayload := do
  let aesResult ← AES256GCM.encrypt payload none keyTape ivTape
  let encryptedAESKey := RSAKeyPairManager.encryptWithPublicKey aesResult.key serverPublicKey
  return { ciphertext := aesResult.ciphertext
           encryptedAESKey := encryptedAESKey
           iv := aesResult.iv
           authTag := aesResult.authTag }

/-- `SecureBridge.decryptRequest`: unwrap the AES key with the private key (a
failure here propagates and step 2 is never attempted), then AES-decrypt. -/
def SecureBridge.decryptRequest (encryptedPayload : EncryptedPayload) (serverPrivateKey : Nat) :
    Except CryptoError Bytes := do
  let aesKey ← RSAKeyPairManager.decryptWithPrivateKey
      encryptedPayload.encryptedAESKey serverPrivateKey
  AES256GCM.decrypt { ciphertext := encryptedPayload.ciphertext
                      iv := encryptedPayload.iv
                      authTag := encryptedPayload.authTag
                      key := aesKey }

/-- Modelled from the spec: the verification service's `crypto_service.py` is
not in src; its Readme specifies `index = HMAC-SHA256(secret_key, national_id)`.
Executable stand-in for the keyed digest: a 32-byte output obtained by folding
the secret and the message into an accumulator. -/
def hmacSha256Model (secret msg : Bytes) : Bytes :=
  let mix := fun (a b : Nat) => (a * 131 + b) % 4294967296
  let h := msg.foldl mix (secret.foldl mix 5381)
  (List.range 32).map fun j => (h + 17 * j) % 256

/-- Modelled from the spec: `BlindIndexer.derive(secret, x)` is the keyed
HMAC-SHA256 digest of the field value.  The invocation's entropy tape is
passed explicitly, exactly as for the sealing operations, to express that the
derivation reads none of it (no per-call randomness). -/
def BlindIndexer.derive (secret x : Bytes) (_invocationTape : Nat → Nat) : Bytes :=
  hmacSha256Model secret x

/-- The four fields of an envelope, for stating tamper detection. -/
inductive EnvField where
  | fCiphertext
  | fIv
  | fAuthTag
  | fEncryptedAESKey
deriving DecidableEq

/-- The byte sequence a field of the envelope transports. -/
def envFieldBytes (env : EncryptedPayload) : EnvField → Bytes
  | .fCiphertext => b64decode env.ciphertext
  | .fIv => b64decode env.iv
  | .fAuthTag => b64decode env.authTag
  | .fEncryptedAESKey => b64decode env.encryptedAESKey

/-- Replace byte `i` of the chosen field's transported bytes by `b`. -/
def tamperEnv (env : EncryptedPayload) (f : EnvField) (i b : Nat) : EncryptedPayload :=
  match f with
  | .fCiphertext => { env with ciphertext := b64encode ((b64decode env.ciphertext).set i b) }
  | .fIv => { env with iv := b64encode ((b64decode env.iv).set i b) }
  | .fAuthTag => { env with authTag := b64encode ((b64decode env.authTag).set i b) }
  | .fEncryptedAESKey =>
      { env with encryptedAESKey := b64encode ((b64decode env.encryptedAESKey).set i b) }

/-- Re-encode every field of a decryption input canonically. -/
def canonicalizeInput (input : AESDecryptionInput) : AESDecryptionInput :=
  { ciphertext := b64encode (b64decode input.ciphertext)
    iv := b64encode (b64decode input.iv)
    authTag := b64encode (b64decode input.authTag)
    key := b64encode (b64decode input.key) }

/-- A concrete decryption input whose ciphertext field carries a leading space
and is therefore not validly base64-encoded; the other three fields are the
honest AES encryption of the two bytes of `"hi"` under the all-zero key and
IV. -/
def spacedInput : AESDecryptionInput :=
  { ciphertext := (" AAAAAAAAAAAAAAAAAAAAAAAAAAAAAAAAAAAAAAAAAAAAAAAAAAAAAAAAAABoaQ==").toList
    iv := ("AAAAAAAAAAAAAAAA").toList
    authTag := ("t8LN2OPu+QQPGiUwO0ZRXA==").toList
    key := ("AAAAAAAAAAAAAAAAAAAAAAAAAAAAAAAAAAAAAAAAAAA=").toList }

/-! ## Base64 codec facts -/

theorem b64idx_b64chr : ∀ n < 64, b64idx (b64chr n) = n := by decide

theorem isB64Char_b64chr : ∀ n < 64, isB64Char (b64chr n) = true := by decide

theorem isB64Char_pad : isB64Char '=' = false := by decide

theorem b64idx_lt (c : Char) (h : isB64Char c = true) : b64idx c < 64 := by
  have hm : c ∈ B64CHARS := by
    simpa [isB64Char, List.contains] using h
  have := List.indexOf_lt_length.mpr hm
  simpa [b64idx] using this

/-- Decoding is left inverse to encoding on genuine byte sequences. -/
theorem b64decode_b64encode (bs : Bytes) (h : ByteOK bs) : b64decode (b64encode bs) = bs := by
  induction bs using b64encode.induct with
  | case1 b0 b1 b2 rest ih =>
    have hb0 : b0 < 256 := h _ (by simp)
    have hb1 : b1 < 256 := h _ (by simp)
    have hb2 : b2 < 256 := h _ (by simp)
    have h1 : isB64Char (b64chr (b0 / 4)) = true := isB64Char_b64chr _ (by omega)
    have h2 : isB64Char (b64chr (b0 % 4 * 16 + b1 / 16)) = true := isB64Char_b64chr _ (by omega)
    have h3 : isB64Char (b64chr (b1 % 16 * 4 + b2 / 64)) = true := isB64Char_b64chr _ (by omega)
    have h4 : isB64Char (b64chr (b2 % 64)) = true := isB64Char_b64chr _ (by omega)
    have ihr := ih (fun b hb => h b (by simp [hb]))
    simp only [b64decode] at ihr
    simp only [b64encode, b64decode, List.filter_cons, h1, h2, h3, h4, if_true, b64decodeCore]
    rw [b64idx_b64chr _ (by omega), b64idx_b64chr _ (by omega), b64idx_b64chr _ (by omega),
      b64idx_b64chr _ (by omega), ihr]
    have e0 : b0 / 4 * 4 + (b0 % 4 * 16 + b1 / 16) / 16 = b0 := by omega
    have e1 : (b0 % 4 * 16 + b1 / 16) % 16 * 16 + (b1 % 16 * 4 + b2 / 64) / 4 = b1 := by omega
    have e2 : (b1 % 16 * 4 + b2 / 64) % 4 * 64 + b2 % 64 = b2 := by omega
    rw [e0, e1, e2]
  | case2 b0 b1 =>
    have hb0 : b0 < 256 := h _ (by simp)
    have hb1 : b1 < 256 := h _ (by simp)
    have h1 : isB64Char (b64chr (b0 / 4)) = true := isB64Char_b64chr _ (by omega)
    have h2 : isB64Char (b64chr (b0 % 4 * 16 + b1 / 16)) = true := isB64Char_b64chr _ (by omega)
    have h3 : isB64Char (b64chr (b1 % 16 * 4)) = true := isB64Char_b64chr _ (by omega)
    simp only [b64encode, b64decode, List.filter_cons, h1, h2, h3, isB64Char_pad, if_true,
      Bool.false_eq_true, if_false, List.filter_nil, b64decodeCore]
    rw [b64idx_b64chr _ (by omega), b64idx_b64chr _ (by omega), b64idx_b64chr _ (by omega)]
    have e0 : b0 / 4 * 4 + (b0 % 4 * 16 + b1 / 16) / 16 = b0 := by omega
    have e1 : (b0 % 4 * 16 + b1 / 16) % 16 * 16 + b1 % 16 * 4 / 4 = b1 := by omega
    rw [e0, e1]
  | case3 b0 =>
    have hb0 : b0 < 256 := h _ (by simp)
    have h1 : isB64Char (b64chr (b0 / 4)) = true := isB64Char_b64chr _ (by omega)
    have h2 : isB64Char (b64chr (b0 % 4 * 16)) = true := isB64Char_b64chr _ (by omega)
    simp only [b64encode, b64decode, List.filter_cons, h1, h2, isB64Char_pad, if_true,
      Bool.false_eq_true, if_false, List.filter_nil, b64decodeCore]
    rw [b64idx_b64chr _ (by omega), b64idx_b64chr _ (by omega)]
    have e0 : b0 / 4 * 4 + b0 % 4 * 16 / 16 = b0 := by omega
    rw [e0]
  | case4 => rfl

theorem byteOK_b64decodeCore :
    ∀ cs : List Char, (∀ c ∈ cs, isB64Char c = true) → ByteOK (b64decodeCore cs) := by
  intro cs
  induction cs using b64decodeCore.induct with
  | case1 c0 c1 c2 c3 rest ih =>
    intro h x hx
    have i0 := b64idx_lt c0 (h _ (by simp))
    have i1 := b64idx_lt c1 (h _ (by simp))
    have i2 := b64idx_lt c2 (h _ (by simp))
    have i3 := b64idx_lt c3 (h _ (by simp))
    simp only [b64decodeCore, List.mem_cons] at hx
    rcases hx with rfl | rfl | rfl | hx
    · omega
    · omega
    · omega
    · exact ih (fun c hc => h c (by simp [hc])) x hx
  | case2 c0 c1 c2 =>
    intro h x hx
    have i0 := b64idx_lt c0 (h _ (by simp))
    have i1 := b64idx_lt c1 (h _ (by simp))
    have i2 := b64idx_lt c2 (h _ (by simp))
    simp only [b64decodeCore, List.mem_cons, List.not_mem_nil, or_false] at hx
    rcases hx with rfl | rfl <;> omega
  | case3 c0 c1 =>
    intro h x hx
    have i0 := b64idx_lt c0 (h _ (by simp))
    have i1 := b64idx_lt c1 (h _ (by simp))
    simp only [b64decodeCore, List.mem_cons, List.not_mem_nil, or_false] at hx
    rcases hx with rfl; omega
  | case4 _ => intro _ x hx; simp [b64decodeCore] at hx
  | case5 => intro _ x hx; simp [b64decodeCore] at hx

theorem byteOK_b64decode (s : List Char) : ByteOK (b64decode s) :=
  byteOK_b64decodeCore _ (fun _ hc => (List.mem_filter.mp hc).2)

theorem b64decode_encode_decode (s : List Char) :
    b64decode (b64encode (b64decode s)) = b64decode s :=
  b64decode_b64encode _ (byteOK_b64decode s)

/-! ## Byte-sequence and entropy facts -/

theorem length_randomBytes (n : Nat) (tape : Nat → Nat) : (randomBytes n tape).length = n := by
  simp [randomBytes]

theorem byteOK_randomBytes (n : Nat) (tape : Nat → Nat) : ByteOK (randomBytes n tape) := by
  intro b hb
  simp only [randomBytes, List.mem_map] at hb
  obtain ⟨i, _, rfl⟩ := hb
  omega

theorem ByteOK.append {a b : Bytes} (ha : ByteOK a) (hb : ByteOK b) : ByteOK (a ++ b) := by
  intro x hx
  rcases List.mem_append.mp hx with h | h
  exacts [ha x h, hb x h]

theorem byteOK_map_mod (l : List Nat) (f : Nat → Nat) : ByteOK (l.map fun b => f b % 256) := by
  intro x hx
  simp only [List.mem_map] at hx
  obtain ⟨a, _, rfl⟩ := hx
  omega

theorem gcmShift_lt (key iv : Bytes) : gcmShift key iv < 256 := Nat.mod_lt _ (by omega)

theorem byteOK_gcmEncBytes {key iv : Bytes} (p : Bytes) (hk : ByteOK key) (hiv : ByteOK iv) :
    ByteOK (gcmEncBytes key iv p) := by
  unfold gcmEncBytes
  exact (hk.append hiv).append (byteOK_map_mod p _)

theorem byteOK_gcmTag (key iv c : Bytes) : ByteOK (gcmTag key iv c) := by
  intro x hx
  simp only [gcmTag, List.mem_map] at hx
  obtain ⟨j, _, rfl⟩ := hx
  omega

theorem byteOK_pubEncode (k : Nat) : ByteOK (pubEncode k) := by
  intro x hx
  simp only [pubEncode, List.mem_append, List.mem_replicate, List.mem_singleton] at hx
  rcases hx with ⟨_, rfl⟩ | rfl <;> omega

theorem byteOK_rsaOaepWrap {d : Bytes} (k : Nat) (hd : ByteOK d) : ByteOK (rsaOaepWrap d k) := by
  intro x hx
  simp only [rsaOaepWrap, List.mem_append, List.mem_cons] at hx
  rcases hx with h | rfl | h
  · exact byteOK_pubEncode k x h
  · omega
  · exact hd x h

/-- Decrypting with the same key and IV undoes the ideal cipher core. -/
theorem gcmDecBytes_gcmEncBytes (key iv p : Bytes) (hp : ByteOK p) :
    gcmDecBytes key iv (gcmEncBytes key iv p) = p := by
  unfold gcmDecBytes gcmEncBytes
  rw [List.append_assoc, List.drop_left, List.drop_left, List.map_map]
  have hs := gcmShift_lt key iv
  calc (p.map ((fun b => (b + (256 - gcmShift key iv)) % 256) ∘ fun b => (b + gcmShift key iv) % 256))
      = p.map id := List.map_congr_left (fun a ha => by
        have := hp a ha
        simp only [Function.comp_apply, id_eq]
        omega)
    _ = p := List.map_id p

/-- One-byte split form of `List.set`. -/
theorem set_split (l : Bytes) (i b : Nat) (h : i < l.length) :
    l = l.take i ++ l.getD i 0 :: l.drop (i + 1) ∧
    l.set i b = l.take i ++ b :: l.drop (i + 1) ∧ (l.take i).length = i := by
  refine ⟨?_, ?_, ?_⟩
  · conv_lhs => rw [← List.take_append_drop i l]
    rw [List.drop_eq_getElem_cons h, List.getD_eq_getElem l 0 h]
  · rw [List.set_eq_take_append_cons_drop, if_pos h]
  · rw [List.length_take]; omega

/-- Replacing a byte by a different value yields a different list. -/
theorem set_ne_self (l : Bytes) (i b : Nat) (hi : i < l.length) (hne : b ≠ l.getD i 0) :
    l.set i b ≠ l := by
  intro h
  have h1 := congrArg (fun x => x[i]?) h
  simp only at h1
  rw [List.getElem?_set_self hi, List.getElem?_eq_getElem hi] at h1
  rw [List.getD_eq_getElem l 0 hi] at hne
  exact hne (Option.some.inj h1)

/-- The first byte of the ideal tag. -/
theorem gcmTag_getD_zero (key iv c : Bytes) :
    (gcmTag key iv c).getD 0 0 = (3 * key.sum + 5 * iv.sum + 7 * c.sum) % 256 := by
  have h16 : List.range 16 = [0, 1, 2, 3, 4, 5, 6, 7, 8, 9, 10, 11, 12, 13, 14, 15] := by decide
  simp [gcmTag, h16]

/-- Changing one ciphertext byte value changes the tag. -/
theorem gcmTag_ne_ct (key iv u v : Bytes) (old b : Nat) (ho : old < 256) (hb : b < 256)
    (hne : old ≠ b) : gcmTag key iv (u ++ old :: v) ≠ gcmTag key iv (u ++ b :: v) := by
  intro h
  have h1 := congrArg (fun l => l.getD 0 0) h
  simp only [gcmTag_getD_zero, List.sum_append, List.sum_cons] at h1
  omega

/-- Changing one IV byte value changes the tag. -/
theorem gcmTag_ne_iv (key u v c : Bytes) (old b : Nat) (ho : old < 256) (hb : b < 256)
    (hne : old ≠ b) : gcmTag key (u ++ old :: v) c ≠ gcmTag key (u ++ b :: v) c := by
  intro h
  have h1 := congrArg (fun l => l.getD 0 0) h
  simp only [gcmTag_getD_zero, List.sum_append, List.sum_cons] at h1
  omega

/-! ## Ideal RSA-OAEP facts -/

theorem pubEncode_length (k : Nat) : (pubEncode k).length = k + 1 := by
  simp [pubEncode]

/-- Unwrapping with the matching private key recovers the wrapped payload. -/
theorem rsaOaepUnwrap_rsaOaepWrap (d : Bytes) (k : Nat) :
    rsaOaepUnwrap (rsaOaepWrap d k) k = .ok d := by
  unfold rsaOaepUnwrap rsaOaepWrap
  rw [show k + 1 = (pubEncode k).length from (pubEncode_length k).symm,
    List.take_left, List.drop_left, if_pos rfl]
  simp


/-- Unwrapping with a key other than the wrapping one fails the padding
check. -/
theorem rsaOaepUnwrap_wrong_key (d : Bytes) (k1 k2 : Nat) (hne : k1 ≠ k2) :
    rsaOaepUnwrap (rsaOaepWrap d k1) k2 = .error .unwrapFailure := by
  unfold rsaOaepUnwrap
  rw [if_neg]
  intro heq
  rcases Nat.lt_or_ge k1 k2 with h | h
  · have h1 := congrArg (fun l => l[k1]?) heq
    simp only [List.getElem?_take] at h1
    rw [if_pos (by omega)] at h1
    have h2 : (rsaOaepWrap d k1)[k1]? = some 0 := by
      rw [rsaOaepWrap, pubEncode, List.append_assoc,
        List.getElem?_append_right (by simp)]
      simp
    have h3 : (pubEncode k2)[k1]? = some 1 := by
      rw [pubEncode, List.getElem?_append, if_pos (by simpa using h),
        List.getElem?_replicate, if_pos h]
    rw [h2, h3] at h1
    exact absurd (Option.some.inj h1) (by omega)
  · have hk : k2 < k1 := by omega
    have h1 := congrArg (fun l => l[k2]?) heq
    simp only [List.getElem?_take] at h1
    rw [if_pos (by omega)] at h1
    have h2 : (rsaOaepWrap d k1)[k2]? = some 1 := by
      rw [rsaOaepWrap, pubEncode, List.append_assoc,
        List.getElem?_append, if_pos (by simpa using hk),
        List.getElem?_replicate, if_pos hk]
    have h3 : (pubEncode k2)[k2]? = some 0 := by
      rw [pubEncode, List.getElem?_append_right (by simp)]
      simp
    rw [h2, h3] at h1
    exact absurd (Option.some.inj h1) (by omega)

/-- Any single-byte change of a wrapped blob makes the unwrap fail. -/
theorem rsaOaepUnwrap_tamper (k : Nat) (d : Bytes) (hd : ByteOK d) (i b : Nat)
    (hi : i < (rsaOaepWrap d k).length) (hb : b < 256)
    (hne : b ≠ (rsaOaepWrap d k).getD i 0) :
    rsaOaepUnwrap ((rsaOaepWrap d k).set i b) k = .error .unwrapFailure := by
  obtain ⟨hw, hwset, hulen⟩ := set_split (rsaOaepWrap d k) i b hi
  rcases Nat.lt_or_ge i (k + 1) with hik | hik
  · -- the changed byte lies in the key fingerprint: the prefix check fails
    unfold rsaOaepUnwrap
    rw [if_neg]
    intro heq
    have h1 := congrArg (fun l => l[i]?) heq
    simp only [List.getElem?_take] at h1
    rw [if_pos hik, List.getElem?_set_self hi] at h1
    have h3 : (pubEncode k)[i]? = some ((rsaOaepWrap d k).getD i 0) := by
      have h4 : (rsaOaepWrap d k)[i]? = (pubEncode k)[i]? := by
        rw [rsaOaepWrap, List.getElem?_append, if_pos (by rw [pubEncode_length]; omega)]
      rw [← h4, List.getElem?_eq_getElem hi, List.getD_eq_getElem _ 0 hi]
    rw [h3] at h1
    exact hne (Option.some.inj h1)
  · -- the changed byte lies in the integrity byte or the payload
    have hpre : ((rsaOaepWrap d k).set i b).take (k + 1) = pubEncode k := by
      have htw : (rsaOaepWrap d k).take (k + 1) = pubEncode k := by
        conv_lhs => rw [show k + 1 = (pubEncode k).length from (pubEncode_length k).symm]
        rw [rsaOaepWrap]
        exact List.take_left _ _
      rw [hwset, List.take_append_of_le_length (by omega), ← htw]
      conv_rhs => rw [hw]
      rw [List.take_append_of_le_length (by omega), List.take_take]
    have hdropw : (rsaOaepWrap d k).drop (k + 1) = (k + d.sum) % 256 :: d := by
      conv_lhs => rw [show k + 1 = (pubEncode k).length from (pubEncode_length k).symm]
      rw [rsaOaepWrap]
      exact List.drop_left _ _
    have hdrop : ((rsaOaepWrap d k).set i b).drop (k + 1) =
        ((rsaOaepWrap d k).take i).drop (k + 1) ++ b :: (rsaOaepWrap d k).drop (i + 1) := by
      rw [hwset, List.drop_append_of_le_length (by omega)]
    have hdropw2 : ((rsaOaepWrap d k).take i).drop (k + 1) ++
        (rsaOaepWrap d k).getD i 0 :: (rsaOaepWrap d k).drop (i + 1) = (k + d.sum) % 256 :: d := by
      rw [← hdropw]
      conv_rhs => rw [hw]
      rw [List.drop_append_of_le_length (by omega)]
    rcases Nat.eq_or_lt_of_le hik with hik1 | hik1
    · -- the integrity byte itself changed
      have htake0 : ((rsaOaepWrap d k).take i).drop (k + 1) = ([] : Bytes) := by
        apply List.eq_nil_of_length_eq_zero
        rw [List.length_drop, hulen]
        omega
      rw [htake0, List.nil_append] at hdrop hdropw2
      have hmac : (rsaOaepWrap d k).getD i 0 = (k + d.sum) % 256 := (List.cons.inj hdropw2).1
      have hdd : (rsaOaepWrap d k).drop (i + 1) = d := (List.cons.inj hdropw2).2
      unfold rsaOaepUnwrap
      rw [if_pos hpre]
      simp only [hdrop, hdd]
      rw [if_neg (by rw [← hmac]; exact hne)]
    · -- a payload byte changed: the byte sum and hence the check changes
      have hlen2 : 1 ≤ (((rsaOaepWrap d k).take i).drop (k + 1)).length := by
        rw [List.length_drop, hulen]
        omega
      rcases hu : ((rsaOaepWrap d k).take i).drop (k + 1) with _ | ⟨m, t⟩
      · rw [hu] at hlen2
        simp at hlen2
      · rw [hu] at hdrop hdropw2
        have hm : m = (k + d.sum) % 256 := (List.cons.inj (by simpa using hdropw2)).1
        have hdd : t ++ (rsaOaepWrap d k).getD i 0 :: (rsaOaepWrap d k).drop (i + 1) = d :=
          (List.cons.inj (by simpa using hdropw2)).2
        have hold : (rsaOaepWrap d k).getD i 0 < 256 := by
          apply hd
          have hmem : (rsaOaepWrap d k).getD i 0 ∈
              t ++ (rsaOaepWrap d k).getD i 0 :: (rsaOaepWrap d k).drop (i + 1) :=
            List.mem_append.mpr (Or.inr (List.mem_cons_self _ _))
          rw [hdd] at hmem
          exact hmem
        have hsumd : t.sum + ((rsaOaepWrap d k).getD i 0 +
            ((rsaOaepWrap d k).drop (i + 1)).sum) = d.sum := by
          have := congrArg List.sum hdd
          simpa [List.sum_append] using this
        unfold rsaOaepUnwrap
        rw [if_pos hpre]
        simp only [hdrop, List.cons_append]
        rw [if_neg]
        intro hchk
        rw [List.sum_append, List.sum_cons] at hchk
        omega

/-! ## Normal forms of the library operations -/

/-- `AES256GCM.encrypt` without a caller key always succeeds, keyed by the 32
fresh bytes of this call's key draw and the 12 fresh bytes of its IV draw. -/
theorem AES256GCM.encrypt_none (p : Bytes) (kt it : Nat → Nat) :
    AES256GCM.encrypt p none kt it = .ok
      { ciphertext := b64encode (gcmEncBytes (randomBytes 32 kt) (randomBytes 12 it) p)
        iv := b64encode (randomBytes 12 it)
        authTag := b64encode (gcmTag (randomBytes 32 kt) (randomBytes 12 it)
          (gcmEncBytes (randomBytes 32 kt) (randomBytes 12 it) p))
        key := b64encode (randomBytes 32 kt) } := by
  unfold AES256GCM.encrypt
  simp only [jsStringOr, AES256GCM.generateKey, AES256GCM.generateIV, AES256GCM.KEY_LENGTH,
    AES256GCM.IV_LENGTH]
  rw [b64decode_b64encode _ (byteOK_randomBytes _ _),
    b64decode_b64encode _ (byteOK_randomBytes _ _),
    if_pos (by rw [length_randomBytes])]

/-- `AES256GCM.decrypt` on canonically encoded fields carrying a matching tag
succeeds. -/
theorem AES256GCM.decrypt_ok (K IV CT : Bytes) (hK : ByteOK K) (hIV : ByteOK IV)
    (hCT : ByteOK CT) (hlen : K.length = 32) :
    AES256GCM.decrypt { ciphertext := b64encode CT
                        iv := b64encode IV
                        authTag := b64encode (gcmTag K IV CT)
                        key := b64encode K } =
      .ok (gcmDecBytes K IV CT) := by
  unfold AES256GCM.decrypt
  simp only [AES256GCM.KEY_LENGTH]
  rw [b64decode_b64encode _ hK, b64decode_b64encode _ hIV, b64decode_b64encode _ hCT,
    b64decode_b64encode _ (byteOK_gcmTag K IV CT), if_pos hlen, if_pos rfl]

/-- Normal form of `SecureBridge.encryptRequest`: it always succeeds, and each
envelope field carries the stated byte sequence. -/
theorem SecureBridge.encryptRequest_eq (p : Bytes) (pub : Nat) (kt it : Nat → Nat) :
    SecureBridge.encryptRequest p pub kt it = .ok
      { ciphertext := b64encode (gcmEncBytes (randomBytes 32 kt) (randomBytes 12 it) p)
        encryptedAESKey := b64encode (rsaOaepWrap (randomBytes 32 kt) pub)
        iv := b64encode (randomBytes 12 it)
        authTag := b64encode (gcmTag (randomBytes 32 kt) (randomBytes 12 it)
          (gcmEncBytes (randomBytes 32 kt) (randomBytes 12 it) p)) } := by
  unfold SecureBridge.encryptRequest RSAKeyPairManager.encryptWithPublicKey
  rw [AES256GCM.encrypt_none]
  show Except.ok _ = _
  rw [b64decode_b64encode _ (byteOK_randomBytes _ _)]

/-! ## Claim theorems -/

/-- C1: for every payload and every generated RSA key pair, decrypting an
encrypted request with the pair's private key returns exactly the original
payload — the hybrid seal/open round trip is the identity on payloads. -/
theorem secureBridge_seal_open_roundtrip (payload : Bytes) (h : ByteOK payload) (seed : Nat)
    (keyTape ivTape : Nat → Nat) :
    (SecureBridge.encryptRequest payload (RSAKeyPairManager.generateKeyPair seed).publicKey
        keyTape ivTape).bind
      (fun env => SecureBridge.decryptRequest env
        (RSAKeyPairManager.generateKeyPair seed).privateKey) = .ok payload := by
  rw [SecureBridge.encryptRequest_eq]
  show SecureBridge.decryptRequest _ _ = _
  unfold SecureBridge.decryptRequest RSAKeyPairManager.decryptWithPrivateKey
  simp only [RSAKeyPairManager.generateKeyPair]
  rw [b64decode_b64encode _ (byteOK_rsaOaepWrap _ (byteOK_randomBytes _ _)),
    rsaOaepUnwrap_rsaOaepWrap]
  show AES256GCM.decrypt _ = _
  have hdec := AES256GCM.decrypt_ok (randomBytes 32 keyTape) (randomBytes 12 ivTape)
    (gcmEncBytes (randomBytes 32 keyTape) (randomBytes 12 ivTape) payload)
    (byteOK_randomBytes _ _) (byteOK_randomBytes _ _)
    (byteOK_gcmEncBytes _ (byteOK_randomBytes _ _) (byteOK_randomBytes _ _))
    (length_randomBytes _ _)
  rw [gcmDecBytes_gcmEncBytes _ _ _ h] at hdec
  exact hdec

/-- Witness for C1 at a concrete payload, seed and entropy tapes. -/
theorem secureBridge_seal_open_roundtrip_witness :
    (SecureBridge.encryptRequest [104, 105] (RSAKeyPairManager.generateKeyPair 1).publicKey
        (fun i => i) (fun i => i + 3)).bind
      (fun env => SecureBridge.decryptRequest env
        (RSAKeyPairManager.generateKeyPair 1).privateKey) = .ok [104, 105] :=
  secureBridge_seal_open_roundtrip [104, 105] (by decide) 1 (fun i => i) (fun i => i + 3)

/-- C5: opening an envelope sealed for one key pair with the private key of a
different pair fails at the asymmetric unwrap (so the symmetric step is never
attempted), rather than returning a plaintext. -/
theorem secureBridge_wrong_key_rejection (payload : Bytes) (seed1 seed2 : Nat)
    (hne : RSAKeyPairManager.generateKeyPair seed1 ≠ RSAKeyPairManager.generateKeyPair seed2)
    (keyTape ivTape : Nat → Nat) (env : EncryptedPayload)
    (henv : SecureBridge.encryptRequest payload
      (RSAKeyPairManager.generateKeyPair seed1).publicKey keyTape ivTape = .ok env) :
    SecureBridge.decryptRequest env (RSAKeyPairManager.generateKeyPair seed2).privateKey =
      .error .unwrapFailure := by
  rw [SecureBridge.encryptRequest_eq] at henv
  have hseed : seed1 ≠ seed2 := by
    intro hcontra
    exact hne (by rw [hcontra])
  obtain rfl : env = _ := (Except.ok.inj henv).symm
  unfold SecureBridge.decryptRequest RSAKeyPairManager.decryptWithPrivateKey
  simp only [RSAKeyPairManager.generateKeyPair]
  rw [b64decode_b64encode _ (byteOK_rsaOaepWrap _ (byteOK_randomBytes _ _)),
    rsaOaepUnwrap_wrong_key _ _ _ hseed]
  rfl

/-- Witness for C5 at concrete seeds, payload and tapes. -/
theorem secureBridge_wrong_key_rejection_witness :
    SecureBridge.decryptRequest
      { ciphertext := b64encode (gcmEncBytes (randomBytes 32 (fun i => i))
          (randomBytes 12 (fun i => i + 3)) [104, 105])
        encryptedAESKey := b64encode (rsaOaepWrap (randomBytes 32 (fun i => i)) 1)
        iv := b64encode (randomBytes 12 (fun i => i + 3))
        authTag := b64encode (gcmTag (randomBytes 32 (fun i => i))
          (randomBytes 12 (fun i => i + 3))
          (gcmEncBytes (randomBytes 32 (fun i => i)) (randomBytes 12 (fun i => i + 3))
            [104, 105])) }
      (RSAKeyPairManager.generateKeyPair 2).privateKey = .error .unwrapFailure :=
  secureBridge_wrong_key_rejection [104, 105] 1 2 (by decide) (fun i => i) (fun i => i + 3) _
    (SecureBridge.encryptRequest_eq [104, 105] 1 (fun i => i) (fun i => i + 3))

/-- C6 (spec-modelled): the blind-index derivation is deterministic — it is a
pure keyed digest of secret and field value and reads no per-invocation
randomness, so any two invocations with the same secret and value yield the
identical token. -/
theorem blindIndexer_derive_deterministic (secret x : Bytes) (tape1 tape2 : Nat → Nat) :
    BlindIndexer.derive secret x tape1 = BlindIndexer.derive secret x tape2 := rfl

/-- C7 counterexample: the wrap/unwrap round trip is not the identity on every
payload string — the non-canonically padded base64 string `"aQ"` comes back as
its canonical re-encoding `"aQ=="`. -/
theorem rsa_wrap_unwrap_not_identity :
    RSAKeyPairManager.decryptWithPrivateKey
        (RSAKeyPairManager.encryptWithPublicKey ("aQ").toList
          (RSAKeyPairManager.generateKeyPair 0).publicKey)
        (RSAKeyPairManager.generateKeyPair 0).privateKey ≠ .ok ("aQ").toList ∧
    RSAKeyPairManager.decryptWithPrivateKey
        (RSAKeyPairManager.encryptWithPublicKey ("aQ").toList
          (RSAKeyPairManager.generateKeyPair 0).publicKey)
        (RSAKeyPairManager.generateKeyPair 0).privateKey = .ok ("aQ==").toList := by
  decide

/-- C7 as amended: for every byte payload, wrapping its canonical base64
encoding under a pair's public key and unwrapping with the matching private
key returns exactly that canonical encoding (the round trip is the identity on
the transported bytes, and on strings already in canonical base64 form). -/
theorem rsa_wrap_unwrap_roundtrip (d : Bytes) (hd : ByteOK d) (seed : Nat) :
    RSAKeyPairManager.decryptWithPrivateKey
        (RSAKeyPairManager.encryptWithPublicKey (b64encode d)
          (RSAKeyPairManager.generateKeyPair seed).publicKey)
        (RSAKeyPairManager.generateKeyPair seed).privateKey = .ok (b64encode d) := by
  unfold RSAKeyPairManager.decryptWithPrivateKey RSAKeyPairManager.encryptWithPublicKey
  simp only [RSAKeyPairManager.generateKeyPair]
  rw [b64decode_b64encode _ hd,
    b64decode_b64encode _ (byteOK_rsaOaepWrap _ hd),
    rsaOaepUnwrap_rsaOaepWrap]
  rfl

/-- Witness for the amended C7 at a concrete payload and seed. -/
theorem rsa_wrap_unwrap_roundtrip_witness :
    RSAKeyPairManager.decryptWithPrivateKey
        (RSAKeyPairManager.encryptWithPublicKey (b64encode [9, 200])
          (RSAKeyPairManager.generateKeyPair 3).publicKey)
        (RSAKeyPairManager.generateKeyPair 3).privateKey = .ok (b64encode [9, 200]) :=
  rsa_wrap_unwrap_roundtrip [9, 200] (by decide) 3

/-- The ideal tag is always 16 bytes long. -/
theorem gcmTag_length (key iv c : Bytes) : (gcmTag key iv c).length = 16 := by
  simp [gcmTag]

/-- C8: whenever `AES256GCM.encrypt` returns a result, the key it used decodes
to exactly 32 bytes (256 bits), the IV is exactly this call's freshly drawn 12
random bytes (96 bits, generated per call, not derived or reused), and the
authentication tag is 16 bytes (128 bits). -/
theorem aes_encrypt_parameter_sizes (plaintext : Bytes) (key : Option (List Char))
    (kt it : Nat → Nat) (r : AESEncryptionResult)
    (h : AES256GCM.encrypt plaintext key kt it = .ok r) :
    (b64decode r.key).length = 32 ∧ r.iv = AES256GCM.generateIV it ∧
    b64decode r.iv = randomBytes 12 it ∧ (b64decode r.iv).length = 12 ∧
    (b64decode r.authTag).length = 16 := by
  unfold AES256GCM.encrypt at h
  simp only [AES256GCM.KEY_LENGTH] at h
  by_cases hlen : (b64decode (jsStringOr key (AES256GCM.generateKey kt))).length = 32
  · rw [if_pos hlen] at h
    obtain rfl := (Except.ok.inj h).symm
    refine ⟨hlen, rfl, ?_, ?_, ?_⟩
    · exact b64decode_b64encode _ (byteOK_randomBytes _ _)
    · rw [show b64decode (AES256GCM.generateIV it) = randomBytes 12 it from
        b64decode_b64encode _ (byteOK_randomBytes _ _), length_randomBytes]
    · rw [b64decode_b64encode _ (byteOK_gcmTag _ _ _), gcmTag_length]
  · rw [if_neg hlen] at h
    exact absurd h (by simp)

/-- Witness for C8 at a concrete plaintext and entropy tapes. -/
theorem aes_encrypt_parameter_sizes_witness :
    (b64decode (b64encode (randomBytes 32 (fun i => i)))).length = 32 ∧
    b64encode (randomBytes 12 (fun i => 2 * i)) = AES256GCM.generateIV (fun i => 2 * i) ∧
    b64decode (b64encode (randomBytes 12 (fun i => 2 * i))) = randomBytes 12 (fun i => 2 * i) ∧
    (b64decode (b64encode (randomBytes 12 (fun i => 2 * i)))).length = 12 ∧
    (b64decode (b64encode (gcmTag (randomBytes 32 (fun i => i))
      (randomBytes 12 (fun i => 2 * i))
      (gcmEncBytes (randomBytes 32 (fun i => i)) (randomBytes 12 (fun i => 2 * i))
        [1, 2])))).length = 16 :=
  aes_encrypt_parameter_sizes [1, 2] none (fun i => i) (fun i => 2 * i) _
    (AES256GCM.encrypt_none _ _ _)

/-- C9: calling `AES256GCM.encrypt` with the empty string as key behaves
exactly as omitting the key (the code branches on JS truthiness): a fresh
32-byte key is generated and used, never the empty string, and that generated
key is returned in the result's key field. -/
theorem aes_encrypt_empty_key_generates (plaintext : Bytes) (kt it : Nat → Nat) :
    AES256GCM.encrypt plaintext (some []) kt it = AES256GCM.encrypt plaintext none kt it ∧
    (AES256GCM.encrypt plaintext (some []) kt it).map AESEncryptionResult.key =
      .ok (AES256GCM.generateKey kt) := by
  have he : AES256GCM.encrypt plaintext (some []) kt it =
      AES256GCM.encrypt plaintext none kt it := rfl
  refine ⟨he, ?_⟩
  rw [he, AES256GCM.encrypt_none]
  rfl

/-- C10: a supplied non-empty key string whose base64 decoding is not exactly
32 bytes makes `AES256GCM.encrypt` fail with the invalid-key-length error of
the cipher construction, rather than return an encryption result. -/
theorem aes_encrypt_rejects_bad_key_length (plaintext : Bytes) (k : List Char)
    (kt it : Nat → Nat) (hk : k ≠ []) (hlen : (b64decode k).length ≠ 32) :
    AES256GCM.encrypt plaintext (some k) kt it = .error .invalidKeyLength := by
  unfold AES256GCM.encrypt
  simp only [jsStringOr, AES256GCM.KEY_LENGTH, if_neg hk]
  rw [if_neg hlen]

/-- Witness for C10: a one-character key decodes to zero bytes and is
rejected. -/
theorem aes_encrypt_rejects_bad_key_length_witness :
    AES256GCM.encrypt [5] (some (("!").toList)) (fun i => i) (fun i => i) =
      .error .invalidKeyLength :=
  aes_encrypt_rejects_bad_key_length [5] (("!").toList) (fun i => i) (fun i => i)
    (by decide) (by decide)

/-- C4 as amended: `AES256GCM.decrypt` performs no encoding validation — each
field is decoded leniently (non-alphabet characters silently ignored), so
decryption of any input behaves exactly as on the canonical re-encoding of
that input, and a non-validly-encoded field is never surfaced as a
malformed-encoding failure distinct from the authentication check. -/
theorem aes_decrypt_lenient_decode (input : AESDecryptionInput) :
    AES256GCM.decrypt input = AES256GCM.decrypt (canonicalizeInput input) := by
  unfold AES256GCM.decrypt canonicalizeInput
  simp only [b64decode_encode_decode]

/-- C4 counterexample: an input whose ciphertext field is not validly
base64-encoded (a leading space) is not rejected with any malformed-input
failure — decrypt silently ignores the junk character and returns the
plaintext. -/
theorem aes_decrypt_malformed_not_rejected :
    isValidB64 spacedInput.ciphertext = false ∧
    AES256GCM.decrypt spacedInput = .ok [104, 105] := by decide

/-- Setting one byte to a byte value preserves byte-ness. -/
theorem byteOK_set {l : Bytes} (hl : ByteOK l) {i b : Nat} (hb : b < 256) :
    ByteOK (l.set i b) := by
  rcases Nat.lt_or_ge i l.length with h | h
  · obtain ⟨_, hws, _⟩ := set_split l i b h
    rw [hws]
    intro x hx
    rcases List.mem_append.mp hx with hx | hx
    · exact hl x (List.mem_of_mem_take hx)
    · rcases List.mem_cons.mp hx with rfl | hx
      · exact hb
      · exact hl x (List.mem_of_mem_drop hx)
  · rw [List.set_eq_of_length_le h]
    exact hl

/-- An in-range default-read is a member of the list. -/
theorem getD_mem (l : Bytes) (i : Nat) (h : i < l.length) : l.getD i 0 ∈ l := by
  rw [List.getD_eq_getElem _ 0 h]
  exact List.getElem_mem h

/-- The first 32 ideal-ciphertext bytes are the key fingerprint. -/
theorem gcmEncBytes_take_key (K IV p : Bytes) : (gcmEncBytes K IV p).take K.length = K := by
  rw [gcmEncBytes, List.append_assoc]
  exact List.take_left _ _

/-- Dropping the key fingerprint of a wrapped blob exposes checksum and
payload. -/
theorem rsaOaepWrap_drop (d : Bytes) (k : Nat) :
    (rsaOaepWrap d k).drop (k + 1) = (k + d.sum) % 256 :: d := by
  conv_lhs => rw [show k + 1 = (pubEncode k).length from (pubEncode_length k).symm]
  rw [rsaOaepWrap]
  exact List.drop_left _ _

/-- `AES256GCM.decrypt` on canonically encoded fields with a mismatched tag
fails the authentication check (and releases no plaintext). -/
theorem AES256GCM.decrypt_auth_fail (K IV CT TAG : Bytes) (hK : ByteOK K) (hIV : ByteOK IV)
    (hCT : ByteOK CT) (hTAG : ByteOK TAG) (hlen : K.length = 32)
    (htag : TAG ≠ gcmTag K IV CT) :
    AES256GCM.decrypt { ciphertext := b64encode CT
                        iv := b64encode IV
                        authTag := b64encode TAG
                        key := b64encode K } = .error .authenticationFailure := by
  unfold AES256GCM.decrypt
  simp only [AES256GCM.KEY_LENGTH]
  rw [b64decode_b64encode _ hK, b64decode_b64encode _ hIV, b64decode_b64encode _ hCT,
    b64decode_b64encode _ hTAG, if_pos hlen, if_neg htag]

/-- Opening an envelope whose wrapped key is a canonically encoded wrap under
the private key reduces to the symmetric decryption under the wrapped key. -/
theorem decryptRequest_reduce (ct iv tag : List Char) (K : Bytes) (hK : ByteOK K)
    (seed : Nat) :
    SecureBridge.decryptRequest { ciphertext := ct
                                  encryptedAESKey := b64encode (rsaOaepWrap K seed)
                                  iv := iv
                                  authTag := tag } seed =
      AES256GCM.decrypt { ciphertext := ct, iv := iv, authTag := tag, key := b64encode K } := by
  unfold SecureBridge.decryptRequest RSAKeyPairManager.decryptWithPrivateKey
  rw [b64decode_b64encode _ (byteOK_rsaOaepWrap _ hK), rsaOaepUnwrap_rsaOaepWrap]
  rfl

/-- C3: two runs of `encryptRequest` on the same payload and public key whose
independent randomness yields distinct fresh keys and distinct fresh IVs
produce envelopes differing in their ciphertext bytes, their IV bytes, and
their wrapped-key bytes. -/
theorem secureBridge_freshness (payload : Bytes) (pub : Nat)
    (kt1 it1 kt2 it2 : Nat → Nat) (env1 env2 : EncryptedPayload)
    (h1 : SecureBridge.encryptRequest payload pub kt1 it1 = .ok env1)
    (h2 : SecureBridge.encryptRequest payload pub kt2 it2 = .ok env2)
    (hk : randomBytes 32 kt1 ≠ randomBytes 32 kt2)
    (hiv : randomBytes 12 it1 ≠ randomBytes 12 it2) :
    b64decode env1.ciphertext ≠ b64decode env2.ciphertext ∧
    b64decode env1.iv ≠ b64decode env2.iv ∧
    b64decode env1.encryptedAESKey ≠ b64decode env2.encryptedAESKey := by
  rw [SecureBridge.encryptRequest_eq] at h1 h2
  obtain rfl := (Except.ok.inj h1).symm
  obtain rfl := (Except.ok.inj h2).symm
  refine ⟨?_, ?_, ?_⟩
  · show b64decode (b64encode (gcmEncBytes _ _ _)) ≠ b64decode (b64encode (gcmEncBytes _ _ _))
    rw [b64decode_b64encode _ (byteOK_gcmEncBytes _ (byteOK_randomBytes _ _)
        (byteOK_randomBytes _ _)),
      b64decode_b64encode _ (byteOK_gcmEncBytes _ (byteOK_randomBytes _ _)
        (byteOK_randomBytes _ _))]
    intro hctr
    apply hk
    have e1 := gcmEncBytes_take_key (randomBytes 32 kt1) (randomBytes 12 it1) payload
    have e2 := gcmEncBytes_take_key (randomBytes 32 kt2) (randomBytes 12 it2) payload
    rw [length_randomBytes] at e1 e2
    exact e1.symm.trans ((congrArg (List.take 32) hctr).trans e2)
  · show b64decode (b64encode (randomBytes 12 it1)) ≠ b64decode (b64encode (randomBytes 12 it2))
    rw [b64decode_b64encode _ (byteOK_randomBytes _ _),
      b64decode_b64encode _ (byteOK_randomBytes _ _)]
    exact hiv
  · show b64decode (b64encode (rsaOaepWrap _ _)) ≠ b64decode (b64encode (rsaOaepWrap _ _))
    rw [b64decode_b64encode _ (byteOK_rsaOaepWrap _ (byteOK_randomBytes _ _)),
      b64decode_b64encode _ (byteOK_rsaOaepWrap _ (byteOK_randomBytes _ _))]
    intro hwr
    apply hk
    have := congrArg (List.drop (pub + 1)) hwr
    rw [rsaOaepWrap_drop, rsaOaepWrap_drop] at this
    exact (List.cons.inj this).2

/-- Witness for C3 at a concrete payload, public key and tape pairs. -/
theorem secureBridge_freshness_witness :
    b64decode (b64encode (gcmEncBytes (randomBytes 32 (fun _ => 0))
        (randomBytes 12 (fun _ => 0)) [104, 105])) ≠
      b64decode (b64encode (gcmEncBytes (randomBytes 32 (fun _ => 1))
        (randomBytes 12 (fun _ => 1)) [104, 105])) ∧
    b64decode (b64encode (randomBytes 12 (fun _ => 0))) ≠
      b64decode (b64encode (randomBytes 12 (fun _ => 1))) ∧
    b64decode (b64encode (rsaOaepWrap (randomBytes 32 (fun _ => 0)) 7)) ≠
      b64decode (b64encode (rsaOaepWrap (randomBytes 32 (fun _ => 1)) 7)) :=
  secureBridge_freshness [104, 105] 7 (fun _ => 0) (fun _ => 0) (fun _ => 1) (fun _ => 1) _ _
    (SecureBridge.encryptRequest_eq [104, 105] 7 (fun _ => 0) (fun _ => 0))
    (SecureBridge.encryptRequest_eq [104, 105] 7 (fun _ => 1) (fun _ => 1))
    (by decide) (by decide)

/-- C2: for every envelope produced by `encryptRequest` and every single-byte
modification of any one of its four fields, `decryptRequest` fails with an
authentication failure or an unwrap failure and never returns a plaintext; the
tag is checked before any plaintext is produced, and a corrupted wrapped key
fails before the symmetric step. -/
theorem secureBridge_tamper_detection (payload : Bytes) (seed : Nat)
    (keyTape ivTape : Nat → Nat) (env : EncryptedPayload)
    (henv : SecureBridge.encryptRequest payload
      (RSAKeyPairManager.generateKeyPair seed).publicKey keyTape ivTape = .ok env)
    (f : EnvField) (i b : Nat) (hi : i < (envFieldBytes env f).length) (hb : b < 256)
    (hne : b ≠ (envFieldBytes env f).getD i 0) :
    SecureBridge.decryptRequest (tamperEnv env f i b)
        (RSAKeyPairManager.generateKeyPair seed).privateKey =
      .error .authenticationFailure ∨
    SecureBridge.decryptRequest (tamperEnv env f i b)
        (RSAKeyPairManager.generateKeyPair seed).privateKey =
      .error .unwrapFailure := by
  rw [SecureBridge.encryptRequest_eq] at henv
  simp only [RSAKeyPairManager.generateKeyPair] at henv ⊢
  obtain rfl := (Except.ok.inj henv).symm
  have hK : ByteOK (randomBytes 32 keyTape) := byteOK_randomBytes _ _
  have hIV : ByteOK (randomBytes 12 ivTape) := byteOK_randomBytes _ _
  have hCT : ByteOK (gcmEncBytes (randomBytes 32 keyTape) (randomBytes 12 ivTape) payload) :=
    byteOK_gcmEncBytes _ hK hIV
  have hTAG : ByteOK (gcmTag (randomBytes 32 keyTape) (randomBytes 12 ivTape)
      (gcmEncBytes (randomBytes 32 keyTape) (randomBytes 12 ivTape) payload)) :=
    byteOK_gcmTag _ _ _
  have hW : ByteOK (rsaOaepWrap (randomBytes 32 keyTape) seed) := byteOK_rsaOaepWrap _ hK
  cases f with
  | fEncryptedAESKey =>
      refine Or.inr ?_
      simp only [envFieldBytes] at hi hne
      rw [b64decode_b64encode _ hW] at hi hne
      simp only [tamperEnv]
      rw [b64decode_b64encode _ hW]
      unfold SecureBridge.decryptRequest RSAKeyPairManager.decryptWithPrivateKey
      rw [b64decode_b64encode _ (byteOK_set hW hb),
        rsaOaepUnwrap_tamper seed _ hK i b hi hb hne]
      rfl
  | fCiphertext =>
      refine Or.inl ?_
      simp only [envFieldBytes] at hi hne
      rw [b64decode_b64encode _ hCT] at hi hne
      obtain ⟨hsp, hset, _⟩ := set_split _ i b hi
      simp only [tamperEnv]
      rw [b64decode_b64encode _ hCT]
      show SecureBridge.decryptRequest
        { ciphertext := b64encode _
          encryptedAESKey := b64encode (rsaOaepWrap _ seed)
          iv := b64encode _
          authTag := b64encode _ } seed = _
      rw [decryptRequest_reduce _ _ _ _ hK seed]
      apply AES256GCM.decrypt_auth_fail _ _ _ _ hK hIV (byteOK_set hCT hb) hTAG
        (length_randomBytes _ _)
      have hold : (gcmEncBytes (randomBytes 32 keyTape) (randomBytes 12 ivTape)
          payload).getD i 0 < 256 := hCT _ (getD_mem _ _ hi)
      rw [hset]
      conv_lhs => rw [hsp]
      exact gcmTag_ne_ct _ _ _ _ _ _ hold hb (fun hc => hne hc.symm)
  | fIv =>
      refine Or.inl ?_
      simp only [envFieldBytes] at hi hne
      rw [b64decode_b64encode _ hIV] at hi hne
      obtain ⟨hsp, hset, _⟩ := set_split _ i b hi
      simp only [tamperEnv]
      rw [b64decode_b64encode _ hIV]
      show SecureBridge.decryptRequest
        { ciphertext := b64encode _
          encryptedAESKey := b64encode (rsaOaepWrap _ seed)
          iv := b64encode _
          authTag := b64encode _ } seed = _
      rw [decryptRequest_reduce _ _ _ _ hK seed]
      apply AES256GCM.decrypt_auth_fail _ _ _ _ hK (byteOK_set hIV hb) hCT hTAG
        (length_randomBytes _ _)
      have hold : (randomBytes 12 ivTape).getD i 0 < 256 := hIV _ (getD_mem _ _ hi)
      generalize gcmEncBytes (randomBytes 32 keyTape) (randomBytes 12 ivTape) payload = C
      rw [hset]
      conv_lhs => rw [hsp]
      exact gcmTag_ne_iv _ _ _ _ _ _ hold hb (fun hc => hne hc.symm)
  | fAuthTag =>
      refine Or.inl ?_
      simp only [envFieldBytes] at hi hne
      rw [b64decode_b64encode _ hTAG] at hi hne
      simp only [tamperEnv]
      rw [b64decode_b64encode _ hTAG]
      show SecureBridge.decryptRequest
        { ciphertext := b64encode _
          encryptedAESKey := b64encode (rsaOaepWrap _ seed)
          iv := b64encode _
          authTag := b64encode _ } seed = _
      rw [decryptRequest_reduce _ _ _ _ hK seed]
      apply AES256GCM.decrypt_auth_fail _ _ _ _ hK hIV hCT (byteOK_set hTAG hb)
        (length_randomBytes _ _)
      exact set_ne_self _ i b hi hne

/-- Witness for C2: zeroing the first tag byte of a concrete envelope makes
decryption fail. -/
theorem secureBridge_tamper_detection_witness :
    SecureBridge.decryptRequest
        (tamperEnv
          { ciphertext := b64encode (gcmEncBytes (randomBytes 32 (fun _ => 0))
              (randomBytes 12 (fun _ => 0)) [104, 105])
            encryptedAESKey := b64encode (rsaOaepWrap (randomBytes 32 (fun _ => 0))
              (RSAKeyPairManager.generateKeyPair 0).publicKey)
            iv := b64encode (randomBytes 12 (fun _ => 0))
            authTag := b64encode (gcmTag (randomBytes 32 (fun _ => 0))
              (randomBytes 12 (fun _ => 0))
              (gcmEncBytes (randomBytes 32 (fun _ => 0)) (randomBytes 12 (fun _ => 0))
                [104, 105])) }
          .fAuthTag 0 0)
        (RSAKeyPairManager.generateKeyPair 0).privateKey =
      .error .authenticationFailure ∨
    SecureBridge.decryptRequest
        (tamperEnv
          { ciphertext := b64encode (gcmEncBytes (randomBytes 32 (fun _ => 0))
              (randomBytes 12 (fun _ => 0)) [104, 105])
            encryptedAESKey := b64encode (rsaOaepWrap (randomBytes 32 (fun _ => 0))
              (RSAKeyPairManager.generateKeyPair 0).publicKey)
            iv := b64encode (randomBytes 12 (fun _ => 0))
            authTag := b64encode (gcmTag (randomBytes 32 (fun _ => 0))
              (randomBytes 12 (fun _ => 0))
              (gcmEncBytes (randomBytes 32 (fun _ => 0)) (randomBytes 12 (fun _ => 0))
                [104, 105])) }
          .fAuthTag 0 0)
        (RSAKeyPairManager.generateKeyPair 0).privateKey =
      .error .unwrapFailure :=
  secureBridge_tamper_detection [104, 105] 0 (fun _ => 0) (fun _ => 0) _
    (SecureBridge.encryptRequest_eq [104, 105] (RSAKeyPairManager.generateKeyPair 0).publicKey
      (fun _ => 0) (fun _ => 0))
    .fAuthTag 0 0 (by decide) (by decide) (by decide)
